import Mathlib

/-!
Shallow embedding of the update-processing state machine of `src/bot.py`
(a single-file Telegram code-distribution bot), together with theorems
checking the natural-language specification against it.

Modelling choices:
* The Python `dict` holding the codes (`bot_data["codes"]`) is an
  insertion-ordered association list `List (String × Bool)`, the `Bool`
  being the `is_used` flag.  Python dictionaries preserve insertion order
  and have unique keys; key uniqueness is carried as an explicit
  hypothesis (`keysNodup`) where a theorem needs it.
* The Telegram gateway's role lookup (`bot.get_chat_member`) is an
  environment function `Int → Int → Option String`; `none` models the
  call raising an exception, `some status` a successful lookup of the
  member's status string.
* Outbound gateway calls (`message.reply`, `bot.send_message`) are
  collected in an ordered event list `Out`.
* Redis writes performed by the driver are collected in an ordered event
  list `StoreWrite`.
* Python `text.startswith(p)` is `startswith text p` (prefix test on the
  character list); Python `str.strip()`/`split('\n')`/`replace` are the
  structurally recursive `pyStrip`/`pySplit '\n'`/`pyReplace` below, so
  that every definition evaluates inside the kernel.
-/

/-- An incoming Telegram message, restricted to the fields `bot.py` reads.
`threadId` is `message.message_thread_id` (absent for non-topic messages). -/
structure Message where
  chatId : Int
  threadId : Option Int
  fromUserId : Int
  text : Option String
  isTopicMessage : Bool
deriving DecidableEq, Repr

/-- One element of the batch returned by `bot.get_updates`. -/
structure Update where
  update_id : Int
  message : Option Message
deriving DecidableEq, Repr

/-- The `config` part of the persisted state: both keys are absent until a
successful `/set_topic` binds them. -/
structure Config where
  target_chat_id : Option Int
  target_thread_id : Option Int
deriving DecidableEq, Repr

/-- The persisted application state (`bot_data`): the binding config and the
insertion-ordered codes map, each code paired with its `is_used` flag. -/
structure BotData where
  config : Config
  codes : List (String × Bool)
deriving DecidableEq, Repr

/-- The default state returned by `load_data` when the Redis key is absent. -/
def defaultData : BotData := ⟨⟨none, none⟩, []⟩

/-- Embedding of Python `text.startswith(pat)`. -/
def startswith (s pat : String) : Bool := pat.data.isPrefixOf s.data

/-- The keys of the codes map, in insertion order. -/
def keysOf (codes : List (String × Bool)) : List String := codes.map Prod.fst

/-- A Python dict cannot contain a key twice; states reachable from
deserialised JSON satisfy this. -/
def keysNodup (codes : List (String × Bool)) : Prop := (keysOf codes).Nodup

/-- First-match lookup in the codes map (Python `bot_data["codes"][code]`
and `code in bot_data["codes"]`). -/
def lookupCode (codes : List (String × Bool)) (key : String) : Option Bool :=
  match codes with
  | [] => none
  | (k, v) :: rest => if k = key then some v else lookupCode rest key

/-- Embedding of `next((code for code, data in bot_data["codes"].items() if
not data.get("is_used")), None)`: the first code, in insertion order, whose
`is_used` flag is false. -/
def firstUnused (codes : List (String × Bool)) : Option String :=
  match codes with
  | [] => none
  | (k, v) :: rest => if !v then some k else firstUnused rest

/-- Embedding of `bot_data["codes"][code]["is_used"] = True`: every entry of
the dict carrying this key (a unique one, for dict-shaped states) is marked
used. -/
def setUsed (codes : List (String × Bool)) (key : String) : List (String × Bool) :=
  codes.map (fun p => if p.1 = key then (p.1, true) else p)

/-- Embedding of `sum(1 for data in bot_data["codes"].values() if not
data.get("is_used", False))`. -/
def countUnused (codes : List (String × Bool)) : Nat :=
  (codes.filter (fun p => !p.2)).length

/-- Embedding of the `/add` insertion loop: walk the candidate list, insert
each candidate not already present at the end of the dict as unused, and
count the insertions.  Returns the updated map and `new_codes_count`. -/
def addAll (codes : List (String × Bool)) (cands : List String) :
    List (String × Bool) × Nat :=
  match cands with
  | [] => (codes, 0)
  | c :: rest =>
    if (keysOf codes).contains c then
      addAll codes rest
    else
      let r := addAll (codes ++ [(c, false)]) rest
      (r.1, r.2 + 1)

/-- Python `str.isspace` for a single character: the Unicode whitespace
set Python strips — ASCII whitespace including vertical tab and form
feed, the file/group/record/unit separators, NEL, NBSP, and the Unicode
space-separator and line/paragraph-separator code points. -/
def pyIsSpace (c : Char) : Bool :=
  let n := c.toNat
  (0x09 ≤ n && n ≤ 0x0d) || (0x1c ≤ n && n ≤ 0x1f) || n == 0x20 ||
  n == 0x85 || n == 0xa0 || n == 0x1680 ||
  (0x2000 ≤ n && n ≤ 0x200a) || n == 0x2028 || n == 0x2029 ||
  n == 0x202f || n == 0x205f || n == 0x3000

/-- Python `str.strip()` with no argument: remove leading and trailing
whitespace characters. -/
def pyStrip (s : List Char) : List Char :=
  ((s.dropWhile pyIsSpace).reverse.dropWhile pyIsSpace).reverse

/-- Python `str.split(sep)` for a one-character separator: keeps empty
groups, so `pySplit sep [] = [[]]` just as `''.split(sep) == ['']`. -/
def pySplit (sep : Char) : List Char → List (List Char)
  | [] => [[]]
  | c :: rest =>
    if c = sep then [] :: pySplit sep rest
    else
      match pySplit sep rest with
      | [] => [c] :: []
      | grp :: grps => (c :: grp) :: grps

/-- Fuel-driven worker of `pyReplace`: scan left to right, replace each
non-overlapping occurrence of `pat`.  One fuel unit is spent per step and
every step consumes at least one character, so fuel `s.length` never runs
out. -/
def replaceAux (pat repl : List Char) : Nat → List Char → List Char
  | _, [] => []
  | 0, s => s
  | fuel + 1, c :: rest =>
    if pat.isPrefixOf (c :: rest) then
      repl ++ replaceAux pat repl fuel (List.drop (pat.length - 1) rest)
    else
      c :: replaceAux pat repl fuel rest

/-- Python `s.replace(pat, repl)` for a non-empty pattern (`bot.py` only
ever replaces the literal `/add`): every non-overlapping occurrence,
scanned left to right, is replaced. -/
def pyReplace (s pat repl : String) : String :=
  ⟨replaceAux pat.data repl.data s.data.length s.data⟩

/-- Embedding of the candidate extraction of the `/add` branch:
`codes_text = text.replace('/add', '').strip()` followed by
`[line.strip() for line in codes_text.split('\n') if line.strip()]`.
Note that Python `str.replace` removes every occurrence of `/add`, not only
the leading command token. -/
def extractCandidates (text : String) : List String :=
  let codes_text := pyStrip (pyReplace text "/add" "").data
  (((pySplit '\n' codes_text).map pyStrip).filter
      (fun line => line ≠ [])).map String.mk

/-- Reply text of the permission check: sender is not an administrator. -/
def adminOnlyText : String := "Эту команду может использовать только администратор."

/-- Reply text when `get_chat_member` raises. -/
def needRightsText : String := "Я должен быть администратором в этом чате, чтобы проверить ваши права."

/-- Reply text when `/set_topic` is used outside a topic. -/
def useTopicText : String := "Эту команду нужно использовать внутри темы (топика)."

/-- Confirmation reply of a successful `/set_topic`. -/
def bindOkText : String := "✅ Отлично! Теперь я буду работать только в этой теме."

/-- Reply text when `/get` finds no unused code. -/
def exhaustedText : String := "😔 Увы, все коды закончились."

/-- Text of the allocation message sent to the bound thread. -/
def getReplyText (code : String) (remaining : Nat) : String :=
  "<code>" ++ code ++ "</code>\n\n(Осталось: " ++ toString remaining ++ ")"

/-- Usage hint of `/add` without candidates. -/
def addUsageText : String := "После команды /add отправьте список кодов, каждый с новой строки."

/-- Reply text of a successful `/add`. -/
def addedText (n remaining : Nat) : String :=
  "👍 Добавлено " ++ toString n ++ " новых кодов.\nВсего доступно: " ++ toString remaining

/-- Reply text of an `/add` whose candidates all already existed. -/
def noneAddedText : String := "Все эти коды уже были в базе. Новых не добавлено."

/-- An outbound gateway call issued while processing. -/
inductive Out where
  /-- `message.reply text`: a reply addressed to the original sender. -/
  | reply (target : Message) (text : String)
  /-- `bot.send_message(chat_id, message_thread_id, text)`. -/
  | send (chatId : Option Int) (threadId : Option Int) (text : String)
deriving DecidableEq, Repr

/-- The role-lookup environment: `env chatId userId` is the result of
`bot.get_chat_member(chatId, userId).status`, `none` when the call raises. -/
def Env : Type := Int → Int → Option String

/-- Embedding of one iteration of the message loop body of
`process_updates`, for a message that has a text body.  Returns the updated
state, whether this message set `data_changed`, and the outbound calls it
issued, in order. -/
def processMessage (env : Env) (bot_data : BotData) (message : Message)
    (text : String) : BotData × Bool × List Out :=
  if startswith text "/set_topic" then
    match env message.chatId message.fromUserId with
    | none =>
      (bot_data, false, [Out.reply message needRightsText])
    | some status =>
      if status ≠ "administrator" ∧ status ≠ "creator" then
        (bot_data, false, [Out.reply message adminOnlyText])
      else if !message.isTopicMessage then
        (bot_data, false, [Out.reply message useTopicText])
      else
        ({ bot_data with
            config := ⟨some message.chatId, message.threadId⟩ },
         true, [Out.reply message bindOkText])
  else
    let target_chat_id := bot_data.config.target_chat_id
    let target_thread_id := bot_data.config.target_thread_id
    let is_correct_topic :=
      target_chat_id = some message.chatId ∧
      target_thread_id = message.threadId
    if ¬ is_correct_topic then
      (bot_data, false, [])
    else
      let afterGet : BotData × Bool × List Out :=
        if startswith text "/get" then
          match firstUnused bot_data.codes with
          | some code_to_send =>
            -- Python gates on truthiness (`if code_to_send:`), so an
            -- empty-string code falls through to the exhaustion branch.
            if code_to_send ≠ "" then
              let codes := setUsed bot_data.codes code_to_send
              let remaining_count := countUnused codes
              ({ bot_data with codes := codes }, true,
               [Out.send target_chat_id target_thread_id
                  (getReplyText code_to_send remaining_count)])
            else
              (bot_data, false, [Out.reply message exhaustedText])
          | none =>
            (bot_data, false, [Out.reply message exhaustedText])
        else
          (bot_data, false, [])
      let d := afterGet.1
      if startswith text "/add" then
        let codes := extractCandidates text
        if codes = [] then
          (d, afterGet.2.1, afterGet.2.2 ++ [Out.reply message addUsageText])
        else
          let r := addAll d.codes codes
          let new_codes_count := r.2
          if new_codes_count > 0 then
            let remaining_count := countUnused r.1
            ({ d with codes := r.1 }, true,
             afterGet.2.2 ++
               [Out.reply message (addedText new_codes_count remaining_count)])
          else
            ({ d with codes := r.1 }, afterGet.2.1,
             afterGet.2.2 ++ [Out.reply message noneAddedText])
      else
        (d, afterGet.2.1, afterGet.2.2)

/-- One iteration of `for update in updates`: messages without a body
(`not update.message or not update.message.text`; the empty string is falsy
in Python) are skipped. -/
def processUpdate (env : Env) (acc : BotData × Bool × List Out)
    (update : Update) : BotData × Bool × List Out :=
  match update.message with
  | none => acc
  | some message =>
    match message.text with
    | none => acc
    | some text =>
      if text = "" then acc
      else
        let r := processMessage env acc.1 message text
        (r.1, acc.2.1 || r.2.1, acc.2.2 ++ r.2.2)

/-- The whole message loop of `process_updates`, starting from
`data_changed = False` and no outbound calls. -/
def processUpdates (env : Env) (bot_data : BotData) (updates : List Update) :
    BotData × Bool × List Out :=
  updates.foldl (processUpdate env) (bot_data, false, [])

/-- A write issued against the Redis store by the driver. -/
inductive StoreWrite where
  /-- `save_data(bot_data)`: the state blob under `REDIS_DATA_KEY`. -/
  | data (d : BotData)
  /-- `redis_client.set(REDIS_OFFSET_KEY, id)`: the cursor. -/
  | offset (id : Int)
deriving DecidableEq, Repr

/-- True of the state-blob writes among the driver's store writes. -/
def StoreWrite.isData : StoreWrite → Bool
  | .data _ => true
  | .offset _ => false

/-- Embedding of `updates[-1].update_id` for the nonempty batch `u :: us`. -/
def lastUpdateId (u : Update) (us : List Update) : Int :=
  (us.getLastD u).update_id

/-- Embedding of the tail of `process_updates` (driver part): given the
loaded state and the fetch outcome (`none`: `bot.get_updates` raised), run
the loop and return the ordered list of Redis writes together with the
outbound calls. `if data_changed: save_data`; then, the batch being
nonempty, the offset is written unconditionally. -/
def runInvocation (env : Env) (bot_data : BotData)
    (fetch : Option (List Update)) : List StoreWrite × List Out :=
  match fetch with
  | none => ([], [])
  | some [] => ([], [])
  | some (u :: us) =>
    let r := processUpdates env bot_data (u :: us)
    ((if r.2.1 then [StoreWrite.data r.1] else []) ++
       [StoreWrite.offset (lastUpdateId u us)],
     r.2.2)

/-! ### Prefix-dispatch facts -/

lemma not_startswith_of_startswith {s p q : String} (h : startswith s p = true)
    (hlen : p.data.length ≤ q.data.length) (hnot : ¬ (p.data <+: q.data)) :
    startswith s q = false := by
  rw [startswith, ← Bool.not_eq_true, List.isPrefixOf_iff_prefix]
  rw [startswith, List.isPrefixOf_iff_prefix] at h
  intro hq
  exact hnot (List.prefix_of_prefix_length_le h hq hlen)

lemma get_not_set {s : String} (h : startswith s "/get" = true) :
    startswith s "/set_topic" = false :=
  not_startswith_of_startswith h (by decide) (by decide)

lemma get_not_add {s : String} (h : startswith s "/get" = true) :
    startswith s "/add" = false :=
  not_startswith_of_startswith h (by decide) (by decide)

lemma add_not_set {s : String} (h : startswith s "/add" = true) :
    startswith s "/set_topic" = false :=
  not_startswith_of_startswith h (by decide) (by decide)

lemma add_not_get {s : String} (h : startswith s "/add" = true) :
    startswith s "/get" = false :=
  not_startswith_of_startswith h (by decide) (by decide)

lemma ne_empty_of_startswith {s p : String} (hp : p ≠ "")
    (h : startswith s p = true) : s ≠ "" := by
  intro he
  subst he
  apply hp
  rw [startswith, List.isPrefixOf_iff_prefix] at h
  have h2 : p.data = [] := List.eq_nil_of_prefix_nil h
  cases p with
  | mk l => cases h2; rfl

/-! ### Branch characterizations of `processMessage` -/

lemma processMessage_skip (env : Env) (d : BotData) (m : Message) (text : String)
    (hset : startswith text "/set_topic" = false)
    (hmatch : ¬ (d.config.target_chat_id = some m.chatId ∧
                 d.config.target_thread_id = m.threadId)) :
    processMessage env d m text = (d, false, []) := by
  simp only [processMessage, hset, Bool.false_eq_true, if_false]
  rw [if_pos hmatch]

lemma processMessage_get_found (env : Env) (d : BotData) (m : Message)
    (text : String) (code : String)
    (hsw : startswith text "/get" = true)
    (hmatch : d.config.target_chat_id = some m.chatId ∧
              d.config.target_thread_id = m.threadId)
    (hfu : firstUnused d.codes = some code)
    (hcode : code ≠ "") :
    processMessage env d m text =
      ({ d with codes := setUsed d.codes code }, true,
       [Out.send d.config.target_chat_id d.config.target_thread_id
          (getReplyText code (countUnused (setUsed d.codes code)))]) := by
  simp only [processMessage, get_not_set hsw, Bool.false_eq_true, if_false,
    if_neg (not_not_intro hmatch), hsw, if_true, hfu, if_pos hcode,
    get_not_add hsw]

lemma processMessage_get_empty_code (env : Env) (d : BotData) (m : Message)
    (text : String)
    (hsw : startswith text "/get" = true)
    (hmatch : d.config.target_chat_id = some m.chatId ∧
              d.config.target_thread_id = m.threadId)
    (hfu : firstUnused d.codes = some "") :
    processMessage env d m text = (d, false, [Out.reply m exhaustedText]) := by
  simp only [processMessage, get_not_set hsw, Bool.false_eq_true, if_false,
    if_neg (not_not_intro hmatch), hsw, if_true, hfu,
    if_neg (not_not_intro rfl), get_not_add hsw]

lemma processMessage_get_exhausted (env : Env) (d : BotData) (m : Message)
    (text : String)
    (hsw : startswith text "/get" = true)
    (hmatch : d.config.target_chat_id = some m.chatId ∧
              d.config.target_thread_id = m.threadId)
    (hfu : firstUnused d.codes = none) :
    processMessage env d m text = (d, false, [Out.reply m exhaustedText]) := by
  simp only [processMessage, get_not_set hsw, Bool.false_eq_true, if_false,
    if_neg (not_not_intro hmatch), hsw, if_true, hfu,
    get_not_add hsw]

lemma processMessage_add (env : Env) (d : BotData) (m : Message)
    (text : String)
    (hsw : startswith text "/add" = true)
    (hmatch : d.config.target_chat_id = some m.chatId ∧
              d.config.target_thread_id = m.threadId) :
    processMessage env d m text =
      (if extractCandidates text = [] then
        (d, false, [Out.reply m addUsageText])
      else if (addAll d.codes (extractCandidates text)).2 > 0 then
        ({ d with codes := (addAll d.codes (extractCandidates text)).1 }, true,
         [Out.reply m (addedText (addAll d.codes (extractCandidates text)).2
            (countUnused (addAll d.codes (extractCandidates text)).1))])
      else
        ({ d with codes := (addAll d.codes (extractCandidates text)).1 }, false,
         [Out.reply m noneAddedText])) := by
  simp only [processMessage, add_not_set hsw, Bool.false_eq_true, if_false,
    if_neg (not_not_intro hmatch), add_not_get hsw, hsw, if_true,
    List.nil_append]

lemma processMessage_bind_ok (env : Env) (d : BotData) (m : Message)
    (text : String) (r : String)
    (hsw : startswith text "/set_topic" = true)
    (henv : env m.chatId m.fromUserId = some r)
    (hr : r = "administrator" ∨ r = "creator")
    (ht : m.isTopicMessage = true) :
    processMessage env d m text =
      ({ d with config := ⟨some m.chatId, m.threadId⟩ }, true,
       [Out.reply m bindOkText]) := by
  have hnr : ¬ (r ≠ "administrator" ∧ r ≠ "creator") := by
    rcases hr with h | h <;> simp [h]
  simp only [processMessage, hsw, if_true, henv, if_neg hnr, ht,
    Bool.not_true, Bool.false_eq_true, if_false]

lemma processMessage_bind_denied_role (env : Env) (d : BotData) (m : Message)
    (text : String) (r : String)
    (hsw : startswith text "/set_topic" = true)
    (henv : env m.chatId m.fromUserId = some r)
    (hr : r ≠ "administrator" ∧ r ≠ "creator") :
    processMessage env d m text = (d, false, [Out.reply m adminOnlyText]) := by
  simp only [processMessage, hsw, if_true, henv, if_pos hr]

lemma processMessage_bind_denied_lookup (env : Env) (d : BotData) (m : Message)
    (text : String)
    (hsw : startswith text "/set_topic" = true)
    (henv : env m.chatId m.fromUserId = none) :
    processMessage env d m text = (d, false, [Out.reply m needRightsText]) := by
  simp only [processMessage, hsw, if_true, henv]

lemma processMessage_bind_not_topic (env : Env) (d : BotData) (m : Message)
    (text : String) (r : String)
    (hsw : startswith text "/set_topic" = true)
    (henv : env m.chatId m.fromUserId = some r)
    (hr : r = "administrator" ∨ r = "creator")
    (ht : m.isTopicMessage = false) :
    processMessage env d m text = (d, false, [Out.reply m useTopicText]) := by
  have hnr : ¬ (r ≠ "administrator" ∧ r ≠ "creator") := by
    rcases hr with h | h <;> simp [h]
  simp only [processMessage, hsw, if_true, henv, if_neg hnr, ht,
    Bool.not_false, if_true]

/-! ### Loop accumulator lemmas -/

lemma processUpdate_acc (env : Env) (d : BotData) (b : Bool) (outs : List Out)
    (u : Update) :
    processUpdate env (d, b, outs) u =
      ((processUpdate env (d, false, []) u).1,
       b || (processUpdate env (d, false, []) u).2.1,
       outs ++ (processUpdate env (d, false, []) u).2.2) := by
  cases hm : u.message with
  | none => simp [processUpdate, hm]
  | some m =>
    cases htext : m.text with
    | none => simp [processUpdate, hm, htext]
    | some text =>
      by_cases he : text = ""
      · simp [processUpdate, hm, htext, he]
      · simp [processUpdate, hm, htext, he]

lemma processUpdates_acc (env : Env) (l : List Update) :
    ∀ (d : BotData) (b : Bool) (outs : List Out),
    l.foldl (processUpdate env) (d, b, outs) =
      ((processUpdates env d l).1, b || (processUpdates env d l).2.1,
       outs ++ (processUpdates env d l).2.2) := by
  induction l with
  | nil => intro d b outs; simp [processUpdates]
  | cons u us ih =>
    intro d b outs
    rcases hpu : processUpdate env (d, false, []) u with ⟨d1, c1, o1⟩
    rw [processUpdates, List.foldl_cons, List.foldl_cons, processUpdate_acc, hpu]
    rw [ih, ih]
    simp [Bool.or_assoc, List.append_assoc]

lemma processUpdates_cons (env : Env) (d : BotData) (u : Update)
    (us : List Update) :
    processUpdates env d (u :: us) =
      ((processUpdates env (processUpdate env (d, false, []) u).1 us).1,
       (processUpdate env (d, false, []) u).2.1 ||
         (processUpdates env (processUpdate env (d, false, []) u).1 us).2.1,
       (processUpdate env (d, false, []) u).2.2 ++
         (processUpdates env (processUpdate env (d, false, []) u).1 us).2.2) := by
  rcases hpu : processUpdate env (d, false, []) u with ⟨d1, c1, o1⟩
  rw [processUpdates, List.foldl_cons, hpu, processUpdates_acc]

lemma processUpdates_append (env : Env) (d : BotData) (l1 l2 : List Update) :
    processUpdates env d (l1 ++ l2) =
      ((processUpdates env (processUpdates env d l1).1 l2).1,
       (processUpdates env d l1).2.1 ||
         (processUpdates env (processUpdates env d l1).1 l2).2.1,
       (processUpdates env d l1).2.2 ++
         (processUpdates env (processUpdates env d l1).1 l2).2.2) := by
  rcases h1 : processUpdates env d l1 with ⟨d1, c1, o1⟩
  rw [processUpdates, List.foldl_append, ← processUpdates, h1, processUpdates_acc]

lemma processUpdate_msg (env : Env) (d : BotData) (m : Message) (text : String)
    (u : Update) (hm : u.message = some m) (ht : m.text = some text)
    (hne : text ≠ "") :
    processUpdate env (d, false, []) u = processMessage env d m text := by
  simp [processUpdate, hm, ht, hne]

/-! ### Driver claims: transient failure, write ordering, cursor -/

/-- C9: if the gateway fetch raises (`fetch = none`) or returns zero
messages, the invocation terminates without writing anything to the store:
neither the state blob nor the cursor is modified. -/
theorem spec_c9_no_persistence_on_failed_or_empty_fetch (env : Env)
    (d : BotData) :
    (runInvocation env d none).1 = [] ∧
    (runInvocation env d (some [])).1 = [] :=
  ⟨rfl, rfl⟩

/-- C10: on a non-empty batch the store writes are ordered: the write list
ends with the single cursor write, every write before it is a state-blob
write, and when the batch mutated the state the state-blob write is present
(hence issued before the cursor write). -/
theorem spec_c10_state_write_precedes_cursor_write (env : Env) (d : BotData)
    (u : Update) (us : List Update) :
    ∃ pre L,
      (runInvocation env d (some (u :: us))).1 = pre ++ [StoreWrite.offset L] ∧
      (∀ w ∈ pre, w.isData = true) ∧
      ((processUpdates env d (u :: us)).2.1 = true →
        pre = [StoreWrite.data (processUpdates env d (u :: us)).1]) := by
  by_cases h : (processUpdates env d (u :: us)).2.1 = true
  · refine ⟨[StoreWrite.data (processUpdates env d (u :: us)).1],
      lastUpdateId u us, ?_, ?_, fun _ => rfl⟩
    · simp [runInvocation, h]
    · intro w hw
      simp at hw
      simp [hw, StoreWrite.isData]
  · refine ⟨[], lastUpdateId u us, ?_, by simp, fun hc => absurd hc h⟩
    simp [runInvocation, h]

lemma le_lastUpdateId : ∀ (us : List Update) (u : Update),
    (u :: us).Pairwise (fun a b => a.update_id ≤ b.update_id) →
    ∀ v ∈ u :: us, v.update_id ≤ lastUpdateId u us := by
  intro us
  induction us with
  | nil =>
    intro u _ v hv
    simp only [List.mem_singleton] at hv
    subst hv
    exact le_refl _
  | cons w ws ih =>
    intro u h v hv
    have hl : lastUpdateId u (w :: ws) = lastUpdateId w ws := by
      simp only [lastUpdateId, List.getLastD_cons]
    rw [List.pairwise_cons] at h
    rcases h with ⟨hu, hw⟩
    rcases List.mem_cons.mp hv with rfl | hv2
    · exact hl ▸ hu _ (List.getLastD_mem_cons ws w)
    · exact hl ▸ ih w hw v hv2

/-- C3: for a successfully fetched non-empty batch, delivered in ascending
update-id order, the cursor key is written exactly once, to the highest
update id of the batch, regardless of whether any message mutated the
state. -/
theorem spec_c3_cursor_written_once_to_highest (env : Env) (d : BotData)
    (u : Update) (us : List Update)
    (hs : (u :: us).Pairwise (fun a b => a.update_id ≤ b.update_id)) :
    ((runInvocation env d (some (u :: us))).1.filter
        (fun w => !w.isData)) = [StoreWrite.offset (lastUpdateId u us)] ∧
    (∀ v ∈ u :: us, v.update_id ≤ lastUpdateId u us) ∧
    lastUpdateId u us ∈ (u :: us).map Update.update_id := by
  refine ⟨?_, le_lastUpdateId us u hs, ?_⟩
  · by_cases h : (processUpdates env d (u :: us)).2.1 = true <;>
      simp [runInvocation, h, StoreWrite.isData]
  · exact List.mem_map_of_mem Update.update_id (List.getLastD_mem_cons us u)

/-! ### Claims C2, C7, C8 and concrete witnesses -/

/-- C2: a message whose text does not begin with the bind prefix and whose
chat/thread pair differs from the bound pair (in particular under a
never-bound config) is dropped: no reply, no mutation, the loop accumulator
is untouched, for every role-lookup environment. -/
theorem spec_c2_topic_isolation (env : Env) (d : BotData) (b : Bool)
    (outs : List Out) (u : Update) (m : Message) (text : String)
    (hm : u.message = some m) (ht : m.text = some text)
    (hset : startswith text "/set_topic" = false)
    (hmatch : ¬ (d.config.target_chat_id = some m.chatId ∧
                 d.config.target_thread_id = m.threadId)) :
    processUpdate env (d, b, outs) u = (d, b, outs) := by
  by_cases he : text = ""
  · simp [processUpdate, hm, ht, he]
  · simp [processUpdate, hm, ht, he,
      processMessage_skip env d m text hset hmatch]

/-- An environment whose role lookup always raises. -/
def envDeny : Env := fun _ _ => none

/-- An environment whose role lookup always reports an administrator. -/
def envAdmin : Env := fun _ _ => some "administrator"

/-- A concrete non-command message outside any bound thread. -/
def mHello : Message := ⟨2, some 7, 9, some "/add\nX", false⟩

/-- Witness for C2: a concrete `/add` in an unbound state is silently
ignored. -/
theorem spec_c2_topic_isolation_witness :
    processUpdate envDeny (defaultData, false, []) ⟨11, some mHello⟩ =
      (defaultData, false, []) :=
  spec_c2_topic_isolation envDeny defaultData false [] ⟨11, some mHello⟩
    mHello "/add\nX" rfl rfl (by decide) (by decide)

/-- C7: a bind command sent as a topic message by a sender whose role
lookup reports administrator or owner sets both config fields to the
message's conversation/thread in one step, overwriting any prior binding,
sends exactly the confirmation reply, reports mutated, and touches nothing
else (no other command branch fires). -/
theorem spec_c7_bind_success (env : Env) (d : BotData) (m : Message)
    (text : String) (r : String)
    (hsw : startswith text "/set_topic" = true)
    (henv : env m.chatId m.fromUserId = some r)
    (hr : r = "administrator" ∨ r = "creator")
    (ht : m.isTopicMessage = true) :
    processMessage env d m text =
      ({ d with config := ⟨some m.chatId, m.threadId⟩ }, true,
       [Out.reply m bindOkText]) :=
  processMessage_bind_ok env d m text r hsw henv hr ht

/-- A concrete `/set_topic` command sent inside a topic. -/
def mBind : Message := ⟨1, some 5, 9, some "/set_topic", true⟩

/-- Witness for C7: binding from the default state at a concrete input. -/
theorem spec_c7_bind_success_witness :
    processMessage envAdmin defaultData mBind "/set_topic" =
      ({ defaultData with config := ⟨some 1, some 5⟩ }, true,
       [Out.reply mBind bindOkText]) :=
  spec_c7_bind_success envAdmin defaultData mBind "/set_topic"
    "administrator" (by decide) rfl (Or.inl rfl) rfl

/-- C8: a bind command whose sender's role lookup raises or reports a role
other than administrator/owner yields exactly one permission-denied reply,
leaves the state unchanged and does not mutate; no other command branch is
evaluated for that message. -/
theorem spec_c8_bind_denied (env : Env) (d : BotData) (m : Message)
    (text : String)
    (hsw : startswith text "/set_topic" = true)
    (hden : env m.chatId m.fromUserId = none ∨
            ∃ r, env m.chatId m.fromUserId = some r ∧
              r ≠ "administrator" ∧ r ≠ "creator") :
    ∃ t, processMessage env d m text = (d, false, [Out.reply m t]) ∧
      (t = needRightsText ∨ t = adminOnlyText) := by
  rcases hden with h | ⟨r, hr, hne⟩
  · exact ⟨needRightsText,
      processMessage_bind_denied_lookup env d m text hsw h, Or.inl rfl⟩
  · exact ⟨adminOnlyText,
      processMessage_bind_denied_role env d m text r hsw hr hne, Or.inr rfl⟩

/-- Witness for C8: a failing role lookup at a concrete input. -/
theorem spec_c8_bind_denied_witness :
    ∃ t, processMessage envDeny defaultData mBind "/set_topic" =
        (defaultData, false, [Out.reply mBind t]) ∧
      (t = needRightsText ∨ t = adminOnlyText) :=
  spec_c8_bind_denied envDeny defaultData mBind "/set_topic" (by decide)
    (Or.inl rfl)

/-- A concrete `/get` command in the thread bound by `mBind`. -/
def mGet1 : Message := ⟨1, some 5, 9, some "/get", false⟩

/-- Witness for C3: a concrete two-update batch writes the cursor once, to
the id of its last update. -/
theorem spec_c3_cursor_witness :
    ((runInvocation envDeny defaultData
        (some [⟨100, some mGet1⟩, ⟨101, none⟩])).1.filter
      (fun w => !w.isData)) = [StoreWrite.offset 101] :=
  (spec_c3_cursor_written_once_to_highest envDeny defaultData
    ⟨100, some mGet1⟩ [⟨101, none⟩] (by decide)).1

/-! ### Codes-map preservation (C4) -/

lemma setUsed_cons (k1 : String) (v : Bool) (rest : List (String × Bool))
    (key : String) :
    setUsed ((k1, v) :: rest) key =
      (if k1 = key then (k1, true) else (k1, v)) :: setUsed rest key := rfl

lemma lookupCode_setUsed (codes : List (String × Bool)) (key k : String) :
    lookupCode (setUsed codes key) k =
      if k = key then Option.map (fun _ => true) (lookupCode codes k)
      else lookupCode codes k := by
  induction codes with
  | nil => by_cases h : k = key <;> simp [setUsed, lookupCode, h]
  | cons p rest ih =>
    rcases p with ⟨k1, v⟩
    rw [setUsed_cons]
    by_cases h1 : k1 = key
    · rw [if_pos h1]
      subst h1
      by_cases h2 : k1 = k
      · subst h2
        simp [lookupCode]
      · simp [lookupCode, h2, ih]
    · rw [if_neg h1]
      by_cases h2 : k1 = k
      · subst h2
        simp [lookupCode, h1, Ne.symm h1]
      · simp [lookupCode, h1, h2, ih]

lemma lookupCode_append_left (codes tail : List (String × Bool)) (k : String)
    (v : Bool) (h : lookupCode codes k = some v) :
    lookupCode (codes ++ tail) k = some v := by
  induction codes with
  | nil => simp [lookupCode] at h
  | cons p rest ih =>
    rcases p with ⟨k1, v1⟩
    by_cases hk : k1 = k
    · simp [lookupCode, hk] at h ⊢; exact h
    · simp [lookupCode, hk] at h ⊢; exact ih h

lemma addAll_cons_of_mem {codes : List (String × Bool)} {c : String}
    {rest : List String} (h : (keysOf codes).contains c = true) :
    addAll codes (c :: rest) = addAll codes rest := by
  show (if (keysOf codes).contains c then addAll codes rest
        else ((addAll (codes ++ [(c, false)]) rest).1,
              (addAll (codes ++ [(c, false)]) rest).2 + 1)) = addAll codes rest
  rw [if_pos h]

lemma addAll_cons_of_not_mem {codes : List (String × Bool)} {c : String}
    {rest : List String} (h : (keysOf codes).contains c = false) :
    addAll codes (c :: rest) =
      ((addAll (codes ++ [(c, false)]) rest).1,
       (addAll (codes ++ [(c, false)]) rest).2 + 1) := by
  have hne : ¬ ((keysOf codes).contains c = true) := by
    rw [h]
    decide
  show (if (keysOf codes).contains c then addAll codes rest
        else ((addAll (codes ++ [(c, false)]) rest).1,
              (addAll (codes ++ [(c, false)]) rest).2 + 1)) = _
  rw [if_neg hne]

lemma addAll_lookup_preserve (cands : List String) :
    ∀ (codes : List (String × Bool)) (k : String) (v : Bool),
    lookupCode codes k = some v →
    lookupCode (addAll codes cands).1 k = some v := by
  induction cands with
  | nil => intro codes k v h; simpa [addAll] using h
  | cons c rest ih =>
    intro codes k v h
    cases hc : (keysOf codes).contains c
    · rw [addAll_cons_of_not_mem hc]
      exact ih _ k v (lookupCode_append_left codes [(c, false)] k v h)
    · rw [addAll_cons_of_mem hc]
      exact ih codes k v h

lemma processMessage_bind_codes (env : Env) (d : BotData) (m : Message)
    (text : String) (hset : startswith text "/set_topic" = true) :
    (processMessage env d m text).1.codes = d.codes := by
  simp only [processMessage, hset, if_true]
  cases env m.chatId m.fromUserId with
  | none => rfl
  | some status =>
    by_cases h1 : status ≠ "administrator" ∧ status ≠ "creator"
    · simp [h1]
    · simp only [h1, if_false]
      by_cases h2 : m.isTopicMessage <;> simp [h2]

lemma processMessage_other (env : Env) (d : BotData) (m : Message)
    (text : String)
    (hset : startswith text "/set_topic" = false)
    (hget : startswith text "/get" = false)
    (hadd : startswith text "/add" = false) :
    processMessage env d m text = (d, false, []) := by
  by_cases hmatch : d.config.target_chat_id = some m.chatId ∧
      d.config.target_thread_id = m.threadId
  · simp only [processMessage, hset, Bool.false_eq_true, if_false,
      if_neg (not_not_intro hmatch), hget, hadd]
  · exact processMessage_skip env d m text hset hmatch

/-- The per-key codes-map invariant of one step: every key stays present
and a true `is_used` flag stays true. -/
def PreservesCodes (a b : List (String × Bool)) : Prop :=
  ∀ k v, lookupCode a k = some v →
    ∃ v', lookupCode b k = some v' ∧ (v = true → v' = true)

lemma preservesCodes_refl (a : List (String × Bool)) : PreservesCodes a a :=
  fun _ v h => ⟨v, h, fun hv => hv⟩

lemma preservesCodes_trans {a b c : List (String × Bool)}
    (h1 : PreservesCodes a b) (h2 : PreservesCodes b c) :
    PreservesCodes a c := by
  intro k v h
  rcases h1 k v h with ⟨v1, hb, hm1⟩
  rcases h2 k v1 hb with ⟨v2, hc, hm2⟩
  exact ⟨v2, hc, fun hv => hm2 (hm1 hv)⟩

lemma processMessage_preserves (env : Env) (d : BotData) (m : Message)
    (text : String) :
    PreservesCodes d.codes (processMessage env d m text).1.codes := by
  by_cases hset : startswith text "/set_topic" = true
  · rw [processMessage_bind_codes env d m text hset]
    exact preservesCodes_refl _
  · rw [Bool.not_eq_true] at hset
    by_cases hmatch : d.config.target_chat_id = some m.chatId ∧
        d.config.target_thread_id = m.threadId
    · by_cases hget : startswith text "/get" = true
      · cases hfu : firstUnused d.codes with
        | none =>
          rw [processMessage_get_exhausted env d m text hget hmatch hfu]
          exact preservesCodes_refl _
        | some code =>
          by_cases hcode : code = ""
          · subst hcode
            rw [processMessage_get_empty_code env d m text hget hmatch hfu]
            exact preservesCodes_refl _
          · rw [processMessage_get_found env d m text code hget hmatch hfu
              hcode]
            intro k v h
            rw [lookupCode_setUsed]
            by_cases hk : k = code
            · subst hk
              refine ⟨true, ?_, fun _ => rfl⟩
              rw [if_pos rfl, h]
              rfl
            · exact ⟨v, by rw [if_neg hk]; exact h, fun hv => hv⟩
      · rw [Bool.not_eq_true] at hget
        by_cases hadd : startswith text "/add" = true
        · rw [processMessage_add env d m text hadd hmatch]
          by_cases hc : extractCandidates text = []
          · rw [if_pos hc]
            exact preservesCodes_refl _
          · rw [if_neg hc]
            by_cases hn : (addAll d.codes (extractCandidates text)).2 > 0
            · rw [if_pos hn]
              intro k v h
              exact ⟨v, addAll_lookup_preserve (extractCandidates text)
                d.codes k v h, fun hv => hv⟩
            · rw [if_neg hn]
              intro k v h
              exact ⟨v, addAll_lookup_preserve (extractCandidates text)
                d.codes k v h, fun hv => hv⟩
        · rw [Bool.not_eq_true] at hadd
          rw [processMessage_other env d m text hset hget hadd]
          exact preservesCodes_refl _
    · rw [processMessage_skip env d m text hset hmatch]
      exact preservesCodes_refl _

lemma processUpdate_preserves (env : Env) (d : BotData) (b : Bool)
    (outs : List Out) (u : Update) :
    PreservesCodes d.codes (processUpdate env (d, b, outs) u).1.codes := by
  cases hm : u.message with
  | none => simp [processUpdate, hm]; exact preservesCodes_refl _
  | some m =>
    cases htext : m.text with
    | none => simp [processUpdate, hm, htext]; exact preservesCodes_refl _
    | some text =>
      by_cases he : text = ""
      · simp [processUpdate, hm, htext, he]; exact preservesCodes_refl _
      · simp only [processUpdate, hm, htext, he, if_false]
        exact processMessage_preserves env d m text

lemma processUpdates_preserves (env : Env) (l : List Update) :
    ∀ d : BotData, PreservesCodes d.codes (processUpdates env d l).1.codes := by
  induction l with
  | nil => intro d; exact preservesCodes_refl _
  | cons u us ih =>
    intro d
    rw [processUpdates_cons]
    exact preservesCodes_trans (processUpdate_preserves env d false [] u)
      (ih (processUpdate env (d, false, []) u).1)

/-- C4: processing any batch preserves the codes-map invariant — every key
present before is still present afterwards, and an `is_used` flag that was
true stays true (false→true is the only transition). -/
theorem spec_c4_codes_invariant (env : Env) (d : BotData)
    (updates : List Update) (k : String) (v : Bool)
    (h : lookupCode d.codes k = some v) :
    ∃ v', lookupCode (processUpdates env d updates).1.codes k = some v' ∧
      (v = true → v' = true) :=
  processUpdates_preserves env updates d k v h

/-- Witness for C4: a used code stays present and used across a batch that
allocates another code. -/
theorem spec_c4_codes_invariant_witness :
    ∃ v', lookupCode (processUpdates envDeny
        ⟨⟨some 1, some 5⟩, [("A1", true), ("B2", false)]⟩
        [⟨100, some mGet1⟩]).1.codes "A1" = some v' ∧
      (true = true → v' = true) :=
  spec_c4_codes_invariant envDeny
    ⟨⟨some 1, some 5⟩, [("A1", true), ("B2", false)]⟩
    [⟨100, some mGet1⟩] "A1" true (by decide)

/-! ### Claim C5: candidate extraction of the add command -/

/-- The candidate extraction exactly as claim C5 words it: the leading
command token alone is removed from the text, the remainder split into
lines, each line trimmed, empty lines dropped. -/
def claimC5Candidates (text : String) : List String :=
  let stripped := List.drop ("/add".data.length) text.data
  (((pySplit '\n' stripped).map pyStrip).filter
      (fun line => line ≠ [])).map String.mk

/-- The candidate extraction as amended: every occurrence of the command
token `/add` anywhere in the text is removed (Python `str.replace`
semantics), the remainder trimmed, split into lines, each line trimmed,
empty lines dropped. -/
def amendedC5Candidates (text : String) : List String :=
  let remainder := pyStrip (pyReplace text "/add" "").data
  (((pySplit '\n' remainder).map pyStrip).filter
      (fun line => line ≠ [])).map String.mk

/-- A concrete bound-thread `/add` message whose payload contains the
substring `/add` again. -/
def mAddTricky : Message := ⟨1, some 5, 9, some "/add\nAB/addCD", false⟩

/-- C5 counterexample: the code removes every occurrence of `/add`
(`str.replace`), not only the leading token, so on the message
`"/add\nAB/addCD"` it inserts the code `"ABCD"`, while the claim's
leading-token-only reading predicts `"AB/addCD"`. -/
theorem spec_c5_counterexample :
    extractCandidates "/add\nAB/addCD" = ["ABCD"] ∧
    claimC5Candidates "/add\nAB/addCD" = ["AB/addCD"] ∧
    (processMessage envDeny ⟨⟨some 1, some 5⟩, []⟩ mAddTricky
        "/add\nAB/addCD").1.codes = [("ABCD", false)] ∧
    extractCandidates "/add\nAB/addCD" ≠
      claimC5Candidates "/add\nAB/addCD" :=
  ⟨by decide, by decide, by decide, by decide⟩

/-- C5 as amended: for an add command in the bound thread, the candidate
codes consumed by the insertion loop are exactly those obtained by
removing every occurrence of the command token, trimming, splitting into
lines, trimming each line and dropping empty lines; with no candidates the
usage hint is sent and nothing changes. -/
theorem spec_c5_candidates_amended (env : Env) (d : BotData) (m : Message)
    (text : String)
    (hsw : startswith text "/add" = true)
    (hmatch : d.config.target_chat_id = some m.chatId ∧
              d.config.target_thread_id = m.threadId) :
    (processMessage env d m text).1.codes =
      (addAll d.codes (amendedC5Candidates text)).1 ∧
    (amendedC5Candidates text = [] →
      processMessage env d m text = (d, false, [Out.reply m addUsageText])) := by
  have he : extractCandidates text = amendedC5Candidates text := rfl
  rw [processMessage_add env d m text hsw hmatch, ← he]
  by_cases hc : extractCandidates text = []
  · rw [if_pos hc]
    exact ⟨by rw [hc]; rfl, fun _ => rfl⟩
  · rw [if_neg hc]
    refine ⟨?_, fun h0 => absurd (he.trans h0) hc⟩
    by_cases hn : (addAll d.codes (extractCandidates text)).2 > 0
    · rw [if_pos hn]
    · rw [if_neg hn]

/-- Witness for the amended C5 at a concrete input containing an embedded
`/add`. -/
theorem spec_c5_candidates_amended_witness :
    (processMessage envDeny ⟨⟨some 1, some 5⟩, []⟩ mAddTricky
        "/add\nAB/addCD").1.codes =
      (addAll (⟨⟨some 1, some 5⟩, []⟩ : BotData).codes
        (amendedC5Candidates "/add\nAB/addCD")).1 :=
  (spec_c5_candidates_amended envDeny ⟨⟨some 1, some 5⟩, []⟩ mAddTricky
    "/add\nAB/addCD" (by decide) (by decide)).1

/-! ### Add-command algebra (C6) -/

lemma contains_eq_decide_mem (l : List String) (a : String) :
    l.contains a = decide (a ∈ l) := by
  induction l with
  | nil => simp
  | cons x xs ih =>
    by_cases h : a = x <;> simp [List.contains_cons, ih, h]

lemma lookupCode_isSome_iff_contains (codes : List (String × Bool))
    (k : String) :
    (lookupCode codes k).isSome = (keysOf codes).contains k := by
  induction codes with
  | nil => rfl
  | cons p rest ih =>
    rcases p with ⟨k1, v⟩
    by_cases h : k1 = k
    · subst h
      simp [lookupCode, keysOf, List.contains_cons]
    · simp [lookupCode, keysOf, List.contains_cons, h, Ne.symm h, ih, keysOf]

lemma lookupCode_append_of_not_mem (codes : List (String × Bool)) (c : String)
    (v : Bool) (h : lookupCode codes c = none) :
    lookupCode (codes ++ [(c, v)]) c = some v := by
  induction codes with
  | nil => simp [lookupCode]
  | cons p rest ih =>
    rcases p with ⟨k1, v1⟩
    by_cases hk : k1 = c
    · subst hk
      simp [lookupCode] at h
    · simp only [List.cons_append, lookupCode, hk, if_false] at h ⊢
      exact ih h

lemma lookupCode_append_singleton_isSome (codes : List (String × Bool))
    (x : String × Bool) (k : String)
    (h : (lookupCode (codes ++ [x]) k).isSome = true) :
    (lookupCode codes k).isSome = true ∨ k = x.1 := by
  induction codes with
  | nil =>
    rcases x with ⟨c, v⟩
    by_cases hk : c = k
    · right
      exact hk.symm
    · simp [lookupCode, hk] at h
  | cons p rest ih =>
    rcases p with ⟨k1, v1⟩
    by_cases hk : k1 = k
    · left
      simp [lookupCode, hk]
    · simp only [List.cons_append, lookupCode, hk, if_false] at h ⊢
      exact ih h

lemma addAll_mem_isSome (cands : List String) :
    ∀ (codes : List (String × Bool)) (c : String), c ∈ cands →
    (lookupCode (addAll codes cands).1 c).isSome = true := by
  induction cands with
  | nil =>
    intro codes c h
    simp at h
  | cons c1 rest ih =>
    intro codes c hc
    cases hmem : (keysOf codes).contains c1
    · rw [addAll_cons_of_not_mem hmem]
      rcases List.mem_cons.mp hc with rfl | h2
      · have h0 : lookupCode codes c = none := by
          have hiff := lookupCode_isSome_iff_contains codes c
          rw [hmem] at hiff
          exact Option.not_isSome_iff_eq_none.mp (by simp [hiff])
        have h1 := lookupCode_append_of_not_mem codes c false h0
        have h2 := addAll_lookup_preserve rest _ c false h1
        simp [h2]
      · exact ih _ c h2
    · rw [addAll_cons_of_mem hmem]
      rcases List.mem_cons.mp hc with rfl | h2
      · have h1 : (lookupCode codes c).isSome = true := by
          rw [lookupCode_isSome_iff_contains]
          exact hmem
        rcases Option.isSome_iff_exists.mp h1 with ⟨v, hv⟩
        have h3 := addAll_lookup_preserve rest codes c v hv
        simp [h3]
      · exact ih codes c h2

lemma addAll_zero_of_all_mem (cands : List String) :
    ∀ codes : List (String × Bool),
    (∀ c ∈ cands, (keysOf codes).contains c = true) →
    addAll codes cands = (codes, 0) := by
  induction cands with
  | nil => intro codes _; rfl
  | cons c1 rest ih =>
    intro codes h
    rw [addAll_cons_of_mem (h c1 (List.mem_cons_self c1 rest))]
    exact ih codes (fun c hc => h c (List.mem_cons_of_mem c1 hc))

lemma addAll_new_unused (cands : List String) :
    ∀ (codes : List (String × Bool)) (c : String), c ∈ cands →
    (keysOf codes).contains c = false →
    lookupCode (addAll codes cands).1 c = some false := by
  induction cands with
  | nil =>
    intro codes c h
    simp at h
  | cons c1 rest ih =>
    intro codes c hc hnot
    by_cases hceq : c = c1
    · subst hceq
      rw [addAll_cons_of_not_mem hnot]
      have h0 : lookupCode codes c = none := by
        have hiff := lookupCode_isSome_iff_contains codes c
        rw [hnot] at hiff
        exact Option.not_isSome_iff_eq_none.mp (by simp [hiff])
      exact addAll_lookup_preserve rest _ c false
        (lookupCode_append_of_not_mem codes c false h0)
    · have h2 : c ∈ rest := by
        rcases List.mem_cons.mp hc with h | h
        · exact absurd h hceq
        · exact h
      cases hmem : (keysOf codes).contains c1
      · rw [addAll_cons_of_not_mem hmem]
        have hnot2 : (keysOf (codes ++ [(c1, false)])).contains c = false := by
          unfold keysOf at hnot ⊢
          rw [List.map_append, contains_eq_decide_mem]
          rw [contains_eq_decide_mem] at hnot
          simp only [decide_eq_false_iff_not] at hnot ⊢
          intro hmem2
          rcases List.mem_append.mp hmem2 with h | h
          · exact hnot h
          · simp at h
            exact hceq h
        exact ih _ c h2 hnot2
      · rw [addAll_cons_of_mem hmem]
        exact ih codes c h2 hnot

lemma addAll_isSome_orig_or_cand (cands : List String) :
    ∀ (codes : List (String × Bool)) (k : String),
    (lookupCode (addAll codes cands).1 k).isSome = true →
    (lookupCode codes k).isSome = true ∨ k ∈ cands := by
  induction cands with
  | nil =>
    intro codes k h
    exact Or.inl h
  | cons c1 rest ih =>
    intro codes k h
    cases hmem : (keysOf codes).contains c1
    · rw [addAll_cons_of_not_mem hmem] at h
      rcases ih _ k h with h2 | h2
      · rcases lookupCode_append_singleton_isSome codes (c1, false) k h2 with
          h3 | h3
        · exact Or.inl h3
        · exact Or.inr (h3 ▸ List.mem_cons_self c1 rest)
      · exact Or.inr (List.mem_cons_of_mem c1 h2)
    · rw [addAll_cons_of_mem hmem] at h
      rcases ih codes k h with h2 | h2
      · exact Or.inl h2
      · exact Or.inr (List.mem_cons_of_mem c1 h2)

lemma addAll_keysNodup (cands : List String) :
    ∀ codes : List (String × Bool), keysNodup codes →
    keysNodup (addAll codes cands).1 := by
  induction cands with
  | nil => intro codes h; exact h
  | cons c1 rest ih =>
    intro codes h
    cases hmem : (keysOf codes).contains c1
    · rw [addAll_cons_of_not_mem hmem]
      apply ih
      unfold keysNodup keysOf at h ⊢
      rw [List.map_append]
      simp only [List.map_cons, List.map_nil]
      rw [List.nodup_append]
      refine ⟨h, List.nodup_singleton c1, ?_⟩
      intro a ha hb
      simp only [List.mem_singleton] at hb
      subst hb
      rw [contains_eq_decide_mem] at hmem
      simp only [decide_eq_false_iff_not] at hmem
      exact hmem ha
    · rw [addAll_cons_of_mem hmem]
      exact ih codes h

/-! ### Allocation algebra (C1) -/

lemma countUnused_cons_used (k : String) (rest : List (String × Bool)) :
    countUnused ((k, true) :: rest) = countUnused rest := by
  simp [countUnused]

lemma countUnused_cons_unused (k : String) (rest : List (String × Bool)) :
    countUnused ((k, false) :: rest) = countUnused rest + 1 := by
  simp [countUnused]

lemma firstUnused_none_iff (codes : List (String × Bool)) :
    firstUnused codes = none ↔ countUnused codes = 0 := by
  induction codes with
  | nil => simp [firstUnused, countUnused]
  | cons p rest ih =>
    rcases p with ⟨k, v⟩
    cases v
    · simp [firstUnused, countUnused_cons_unused]
    · simp [firstUnused, countUnused_cons_used, ih]

lemma firstUnused_mem_keys (codes : List (String × Bool)) (c : String)
    (h : firstUnused codes = some c) : c ∈ keysOf codes := by
  induction codes with
  | nil => simp [firstUnused] at h
  | cons p rest ih =>
    rcases p with ⟨k, v⟩
    cases v
    · simp only [firstUnused, Bool.not_false, if_true, Option.some.injEq] at h
      subst h
      simp [keysOf]
    · simp only [firstUnused, Bool.not_true, Bool.false_eq_true, if_false] at h
      have := ih h
      simp [keysOf] at this ⊢
      exact Or.inr this
  
lemma firstUnused_lookup (codes : List (String × Bool)) (c : String)
    (hnd : keysNodup codes) (h : firstUnused codes = some c) :
    lookupCode codes c = some false := by
  induction codes with
  | nil => simp [firstUnused] at h
  | cons p rest ih =>
    rcases p with ⟨k, v⟩
    have hnd2 : keysNodup rest := by
      unfold keysNodup keysOf at hnd ⊢
      simp only [List.map_cons] at hnd
      exact (List.nodup_cons.mp hnd).2
    cases v
    · simp only [firstUnused, Bool.not_false, if_true, Option.some.injEq] at h
      subst h
      simp [lookupCode]
    · simp only [firstUnused, Bool.not_true, Bool.false_eq_true, if_false] at h
      have hmem := firstUnused_mem_keys rest c h
      have hk : k ≠ c := by
        intro he
        subst he
        unfold keysNodup keysOf at hnd
        simp only [List.map_cons] at hnd
        exact (List.nodup_cons.mp hnd).1 hmem
      simp [lookupCode, hk, ih hnd2 h]

lemma keysOf_setUsed (codes : List (String × Bool)) (key : String) :
    keysOf (setUsed codes key) = keysOf codes := by
  unfold keysOf setUsed
  rw [List.map_map]
  apply List.map_congr_left
  intro p _
  by_cases h : p.1 = key <;> simp [h]

lemma setUsed_of_not_mem (codes : List (String × Bool)) (key : String)
    (h : key ∉ keysOf codes) : setUsed codes key = codes := by
  induction codes with
  | nil => rfl
  | cons p rest ih =>
    rcases p with ⟨k, v⟩
    rw [setUsed_cons]
    have hk : k ≠ key := by
      intro he
      subst he
      exact h (by simp [keysOf])
    rw [if_neg hk, ih]
    intro hm
    apply h
    simp only [keysOf, List.map_cons, List.mem_cons]
    exact Or.inr hm

lemma countUnused_setUsed (codes : List (String × Bool)) (key : String)
    (hnd : keysNodup codes) (h : lookupCode codes key = some false) :
    countUnused (setUsed codes key) + 1 = countUnused codes := by
  induction codes with
  | nil => simp [lookupCode] at h
  | cons p rest ih =>
    rcases p with ⟨k, v⟩
    have hnd2 : keysNodup rest := by
      unfold keysNodup keysOf at hnd ⊢
      simp only [List.map_cons] at hnd
      exact (List.nodup_cons.mp hnd).2
    rw [setUsed_cons]
    by_cases hk : k = key
    · rw [if_pos hk]
      subst hk
      have hv : v = false := by
        simp [lookupCode] at h
        exact h
      subst hv
      have hnm : k ∉ keysOf rest := by
        unfold keysNodup keysOf at hnd
        simp only [List.map_cons] at hnd
        exact (List.nodup_cons.mp hnd).1
      rw [setUsed_of_not_mem rest k hnm, countUnused_cons_used,
        countUnused_cons_unused]
    · rw [if_neg hk]
      have h2 : lookupCode rest key = some false := by
        simp only [lookupCode, hk, if_false] at h
        exact h
      cases v
      · rw [countUnused_cons_unused, countUnused_cons_unused]
        have := ih hnd2 h2
        omega
      · rw [countUnused_cons_used, countUnused_cons_used]
        exact ih hnd2 h2

/-- An update carrying an allocate command addressed to the bound pair
`(c, tt)`. -/
def isGetUpdate (c : Int) (tt : Option Int) (u : Update) : Bool :=
  match u.message with
  | some m =>
    match m.text with
    | some text =>
      startswith text "/get" && (m.chatId == c) && (m.threadId == tt)
    | none => false
  | none => false

/-- The expected outbound calls of a run of successful allocations:
`n` is the number of unused codes before the first allocation, so the
reply for each allocated code carries the unused count after that
allocation. -/
def allocOuts (c tt : Option Int) : List String → Nat → List Out
  | [], _ => []
  | a :: rest, n =>
    Out.send c tt (getReplyText a (n - 1)) :: allocOuts c tt rest (n - 1)

lemma processUpdates_nil (env : Env) (d : BotData) :
    processUpdates env d [] = (d, false, []) := rfl

lemma processUpdates_cons_msg (env : Env) (d : BotData) (u : Update)
    (us : List Update) (m : Message) (text : String)
    (hm : u.message = some m) (htext : m.text = some text)
    (hne : text ≠ "") :
    processUpdates env d (u :: us) =
      ((processUpdates env (processMessage env d m text).1 us).1,
       (processMessage env d m text).2.1 ||
         (processUpdates env (processMessage env d m text).1 us).2.1,
       (processMessage env d m text).2.2 ++
         (processUpdates env (processMessage env d m text).1 us).2.2) := by
  rw [processUpdates_cons, processUpdate_msg env d m text u hm htext hne]

lemma run_get_batch (env : Env) (c : Int) (tt : Option Int) :
    ∀ (msgs : List Update) (codes : List (String × Bool)),
    keysNodup codes →
    "" ∉ keysOf codes →
    countUnused codes = msgs.length →
    (∀ u ∈ msgs, isGetUpdate c tt u = true) →
    ∃ allocated final,
      allocated.length = msgs.length ∧
      allocated.Nodup ∧
      (∀ a ∈ allocated, lookupCode codes a = some false) ∧
      (∀ a ∈ allocated, lookupCode final a = some true) ∧
      keysOf final = keysOf codes ∧
      keysNodup final ∧
      countUnused final = 0 ∧
      processUpdates env ⟨⟨some c, tt⟩, codes⟩ msgs =
        (⟨⟨some c, tt⟩, final⟩, !msgs.isEmpty,
         allocOuts (some c) tt allocated msgs.length) := by
  intro msgs
  induction msgs with
  | nil =>
    intro codes hnd _ hcount _
    exact ⟨[], codes, rfl, List.nodup_nil, by simp, by simp, rfl, hnd,
      hcount, by simp [processUpdates_nil, allocOuts]⟩
  | cons u us ih =>
    intro codes hnd h0 hcount hall
    have hu := hall u (List.mem_cons_self u us)
    cases hm : u.message with
    | none => simp [isGetUpdate, hm] at hu
    | some m =>
      cases htext : m.text with
      | none => simp [isGetUpdate, hm, htext] at hu
      | some text =>
        simp only [isGetUpdate, hm, htext, Bool.and_eq_true, beq_iff_eq] at hu
        obtain ⟨⟨hsw, hchat⟩, hthread⟩ := hu
        rw [List.length_cons] at hcount
        have hpos : countUnused codes ≠ 0 := by omega
        obtain ⟨a, hfa⟩ : ∃ a, firstUnused codes = some a := by
          cases hfu0 : firstUnused codes with
          | none => exact absurd ((firstUnused_none_iff codes).mp hfu0) hpos
          | some a => exact ⟨a, rfl⟩
        have hlf : lookupCode codes a = some false :=
          firstUnused_lookup codes a hnd hfa
        have hk1 : keysOf (setUsed codes a) = keysOf codes :=
          keysOf_setUsed codes a
        have hnd1 : keysNodup (setUsed codes a) := by
          unfold keysNodup
          rw [hk1]
          exact hnd
        have hc1 : countUnused (setUsed codes a) = us.length := by
          have := countUnused_setUsed codes a hnd hlf
          omega
        have hne : text ≠ "" :=
          ne_empty_of_startswith (by decide) hsw
        have hmatch : (⟨⟨some c, tt⟩, codes⟩ : BotData).config.target_chat_id
              = some m.chatId ∧
            (⟨⟨some c, tt⟩, codes⟩ : BotData).config.target_thread_id
              = m.threadId := by
          constructor
          · rw [hchat]
          · rw [hthread]
        have hane : a ≠ "" := by
          intro he
          exact h0 (he ▸ firstUnused_mem_keys codes a hfa)
        have hmsg := processMessage_get_found env ⟨⟨some c, tt⟩, codes⟩ m
          text a hsw hmatch hfa hane
        have htrue : lookupCode (setUsed codes a) a = some true := by
          rw [lookupCode_setUsed, if_pos rfl, hlf]
          rfl
        obtain ⟨alloc2, final, hlen, hnodup, hold, hnew, hkeys, hndf, hcf,
          hrun⟩ := ih (setUsed codes a) hnd1 (by rw [hk1]; exact h0) hc1
            (fun v hv => hall v (List.mem_cons_of_mem u hv))
        refine ⟨a :: alloc2, final, by simp [hlen], ?_, ?_, ?_,
          hkeys.trans hk1, hndf, hcf, ?_⟩
        · rw [List.nodup_cons]
          refine ⟨?_, hnodup⟩
          intro hmem
          have hcontra := htrue.symm.trans (hold a hmem)
          simp at hcontra
        · intro x hx
          rcases List.mem_cons.mp hx with hxa | hx2
          · rw [hxa]
            exact hlf
          · have hxs := hold x hx2
            have hxa : x ≠ a := by
              intro he
              subst he
              rw [htrue] at hxs
              simp at hxs
            rw [lookupCode_setUsed, if_neg hxa] at hxs
            exact hxs
        · intro x hx
          rcases List.mem_cons.mp hx with hxa | hx2
          · subst hxa
            have hpres := processUpdates_preserves env us
              ⟨⟨some c, tt⟩, setUsed codes x⟩ x true htrue
            rcases hpres with ⟨v', hv', hmono⟩
            rw [hrun] at hv'
            rw [hmono rfl] at hv'
            exact hv'
          · exact hnew x hx2
        · calc processUpdates env ⟨⟨some c, tt⟩, codes⟩ (u :: us)
              = ((processUpdates env ⟨⟨some c, tt⟩, setUsed codes a⟩ us).1,
                 true ||
                   (processUpdates env ⟨⟨some c, tt⟩, setUsed codes a⟩
                     us).2.1,
                 Out.send (some c) tt
                     (getReplyText a (countUnused (setUsed codes a))) ::
                   (processUpdates env ⟨⟨some c, tt⟩, setUsed codes a⟩
                     us).2.2) := by
                rw [processUpdates_cons_msg env _ u us m text hm htext hne,
                  hmsg]
                rfl
          _ = (⟨⟨some c, tt⟩, final⟩, true,
               Out.send (some c) tt (getReplyText a us.length) ::
                 allocOuts (some c) tt alloc2 us.length) := by
                rw [hrun, hc1]
                rfl
          _ = (⟨⟨some c, tt⟩, final⟩, !(u :: us).isEmpty,
               allocOuts (some c) tt (a :: alloc2) (u :: us).length) := by
                simp [allocOuts]

/-- C1 as amended: with exactly N unused codes in a state bound to
`(c, tt)`, none of whose code keys is the empty string, a batch of N
allocate commands in the bound thread hands out N distinct codes — each
reply sent to the bound pair carrying the code and the unused count after
that allocation, each allocated code ending up marked used, and the
mutated flag reported true for `N > 0` — and one further allocate command
afterwards yields an exhaustion reply to the sender with no state change.
The no-empty-key hypothesis is forced by the counterexample: Python's
`if code_to_send:` treats an empty-string code as exhaustion. -/
theorem spec_c1_exactly_once_allocation (env : Env) (c : Int)
    (tt : Option Int) (codes : List (String × Bool)) (N : Nat)
    (msgs : List Update) (extra : Update) (mex : Message) (tex : String)
    (hnd : keysNodup codes)
    (h0 : "" ∉ keysOf codes)
    (hN : countUnused codes = N)
    (hlen : msgs.length = N)
    (hall : ∀ u ∈ msgs, isGetUpdate c tt u = true)
    (hexm : extra.message = some mex)
    (hext : mex.text = some tex)
    (hsw : startswith tex "/get" = true)
    (hchat : mex.chatId = c)
    (hthread : mex.threadId = tt) :
    ∃ allocated final,
      allocated.length = N ∧
      allocated.Nodup ∧
      (∀ a ∈ allocated, lookupCode codes a = some false) ∧
      (∀ a ∈ allocated, lookupCode final a = some true) ∧
      keysOf final = keysOf codes ∧
      countUnused final = 0 ∧
      processUpdates env ⟨⟨some c, tt⟩, codes⟩ msgs =
        (⟨⟨some c, tt⟩, final⟩, !msgs.isEmpty,
         allocOuts (some c) tt allocated N) ∧
      processUpdates env ⟨⟨some c, tt⟩, codes⟩ (msgs ++ [extra]) =
        (⟨⟨some c, tt⟩, final⟩, !msgs.isEmpty,
         allocOuts (some c) tt allocated N ++
           [Out.reply mex exhaustedText]) := by
  subst hlen
  obtain ⟨allocated, final, h1, h2, h3, h4, h5, hnd5, h6, h7⟩ :=
    run_get_batch env c tt msgs codes hnd h0 hN hall
  refine ⟨allocated, final, h1, h2, h3, h4, h5, h6, h7, ?_⟩
  have htexne : tex ≠ "" := ne_empty_of_startswith (by decide) hsw
  have hmatch2 :
      (⟨⟨some c, tt⟩, final⟩ : BotData).config.target_chat_id =
        some mex.chatId ∧
      (⟨⟨some c, tt⟩, final⟩ : BotData).config.target_thread_id =
        mex.threadId :=
    ⟨by rw [hchat], by rw [hthread]⟩
  have hfu : firstUnused final = none := (firstUnused_none_iff final).mpr h6
  have hexh := processMessage_get_exhausted env ⟨⟨some c, tt⟩, final⟩ mex
    tex hsw hmatch2 hfu
  have hone : processUpdates env ⟨⟨some c, tt⟩, final⟩ [extra] =
      (⟨⟨some c, tt⟩, final⟩, false, [Out.reply mex exhaustedText]) := by
    rw [processUpdates_cons_msg env _ extra [] mex tex hexm hext htexne,
      hexh]
    rfl
  rw [processUpdates_append, h7]
  show ((processUpdates env ⟨⟨some c, tt⟩, final⟩ [extra]).1,
      !msgs.isEmpty || (processUpdates env ⟨⟨some c, tt⟩, final⟩
        [extra]).2.1,
      allocOuts (some c) tt allocated msgs.length ++
        (processUpdates env ⟨⟨some c, tt⟩, final⟩ [extra]).2.2) = _
  rw [hone]
  simp

/-- Witness for C1 at a concrete input: one unused code, one allocation,
then exhaustion. -/
theorem spec_c1_exactly_once_allocation_witness :
    ∃ allocated final,
      allocated.length = 1 ∧
      allocated.Nodup ∧
      (∀ a ∈ allocated, lookupCode [("A1", false)] a = some false) ∧
      (∀ a ∈ allocated, lookupCode final a = some true) ∧
      keysOf final = keysOf [("A1", false)] ∧
      countUnused final = 0 ∧
      processUpdates envDeny ⟨⟨some 1, some 5⟩, [("A1", false)]⟩
          [⟨100, some mGet1⟩] =
        (⟨⟨some 1, some 5⟩, final⟩, true,
         allocOuts (some 1) (some 5) allocated 1) ∧
      processUpdates envDeny ⟨⟨some 1, some 5⟩, [("A1", false)]⟩
          ([⟨100, some mGet1⟩] ++ [⟨101, some mGet1⟩]) =
        (⟨⟨some 1, some 5⟩, final⟩, true,
         allocOuts (some 1) (some 5) allocated 1 ++
           [Out.reply mGet1 exhaustedText]) :=
  spec_c1_exactly_once_allocation envDeny 1 (some 5) [("A1", false)] 1
    [⟨100, some mGet1⟩] ⟨101, some mGet1⟩ mGet1 "/get"
    (by simp [keysNodup, keysOf]) (by decide) (by decide) (by decide)
    (by decide) rfl rfl (by decide) rfl rfl

/-- C6: an add command in the bound thread inserts each candidate not
already present as a new unused code (once, even if repeated in the same
message), leaves existing entries untouched, adds nothing else, and
replies with the count of newly added codes (or that none were added);
re-submitting the same candidate list on the resulting state inserts
nothing, does not mutate, and replies that none were added. -/
theorem spec_c6_add_idempotent (env : Env) (d : BotData) (m : Message)
    (text : String)
    (hsw : startswith text "/add" = true)
    (hmatch : d.config.target_chat_id = some m.chatId ∧
              d.config.target_thread_id = m.threadId)
    (hnd : keysNodup d.codes)
    (hne : extractCandidates text ≠ []) :
    processMessage env d m text =
      ({ d with codes := (addAll d.codes (extractCandidates text)).1 },
       decide ((addAll d.codes (extractCandidates text)).2 > 0),
       [Out.reply m
         (if (addAll d.codes (extractCandidates text)).2 > 0 then
            addedText (addAll d.codes (extractCandidates text)).2
              (countUnused (addAll d.codes (extractCandidates text)).1)
          else noneAddedText)]) ∧
    (∀ k v, lookupCode d.codes k = some v →
      lookupCode (addAll d.codes (extractCandidates text)).1 k = some v) ∧
    (∀ c ∈ extractCandidates text, (keysOf d.codes).contains c = false →
      lookupCode (addAll d.codes (extractCandidates text)).1 c = some false) ∧
    (∀ k, (lookupCode (addAll d.codes (extractCandidates text)).1 k).isSome =
        true →
      (lookupCode d.codes k).isSome = true ∨ k ∈ extractCandidates text) ∧
    keysNodup (addAll d.codes (extractCandidates text)).1 ∧
    processMessage env
        { d with codes := (addAll d.codes (extractCandidates text)).1 }
        m text =
      ({ d with codes := (addAll d.codes (extractCandidates text)).1 }, false,
       [Out.reply m noneAddedText]) := by
  refine ⟨?_, fun k v h => addAll_lookup_preserve _ d.codes k v h,
    fun c hc hn => addAll_new_unused _ d.codes c hc hn,
    fun k h => addAll_isSome_orig_or_cand _ d.codes k h,
    addAll_keysNodup _ d.codes hnd, ?_⟩
  · rw [processMessage_add env d m text hsw hmatch, if_neg hne]
    by_cases hn : (addAll d.codes (extractCandidates text)).2 > 0
    · rw [if_pos hn, if_pos hn]
      simp [hn]
    · rw [if_neg hn, if_neg hn]
      simp [hn]
  · have hall : ∀ c ∈ extractCandidates text,
        (keysOf (addAll d.codes (extractCandidates text)).1).contains c =
          true := by
      intro c hc
      rw [← lookupCode_isSome_iff_contains]
      exact addAll_mem_isSome _ d.codes c hc
    have hzero := addAll_zero_of_all_mem (extractCandidates text) _ hall
    rw [processMessage_add env
      { d with codes := (addAll d.codes (extractCandidates text)).1 }
      m text hsw hmatch, if_neg hne]
    simp [hzero]

/-- A concrete bound state with an empty codes map, for witnesses. -/
def dBound : BotData := ⟨⟨some 1, some 5⟩, []⟩

/-- A concrete `/add` message carrying candidates X, X, Y in the bound
thread. -/
def mAddXY : Message := ⟨1, some 5, 9, some "/add\nX\nX\nY", false⟩

/-- Witness for C6: re-submitting the same candidate list on the updated
state adds nothing, mutates nothing, and replies that none were added. -/
theorem spec_c6_add_idempotent_witness :
    processMessage envDeny
      { dBound with
        codes := (addAll dBound.codes (extractCandidates "/add\nX\nX\nY")).1 }
      mAddXY "/add\nX\nX\nY" =
      ({ dBound with
         codes :=
           (addAll dBound.codes (extractCandidates "/add\nX\nX\nY")).1 },
       false, [Out.reply mAddXY noneAddedText]) :=
  (spec_c6_add_idempotent envDeny dBound mAddXY "/add\nX\nX\nY" (by decide)
    (by decide) (by simp [keysNodup, keysOf, dBound]) (by decide)).2.2.2.2.2

/-- C1 counterexample to the claim as stated: a bound state holding
exactly two unused codes whose first is the empty string.  Python's
truthiness check `if code_to_send:` treats the empty-string code as no
code found, so two allocate commands hand out zero codes — both draw the
exhaustion reply and nothing mutates — instead of the two distinct codes
the claim promises. -/
theorem spec_c1_counterexample :
    countUnused [("", false), ("X", false)] = 2 ∧
    keysNodup [("", false), ("X", false)] ∧
    processUpdates envDeny ⟨⟨some 1, some 5⟩, [("", false), ("X", false)]⟩
        [⟨100, some mGet1⟩, ⟨101, some mGet1⟩] =
      (⟨⟨some 1, some 5⟩, [("", false), ("X", false)]⟩, false,
       [Out.reply mGet1 exhaustedText, Out.reply mGet1 exhaustedText]) :=
  ⟨by decide, by simp [keysNodup, keysOf], by decide⟩
